import Mathlib

/-!
Verification of the recipe-manager core (src/main.py): the ingredient-line
parser, the shopping-list aggregator with its merge pass, and the portion
scaler.  Python strings are modelled as `List Char`, Python floats as exact
rationals `ℚ` (IEEE rounding is idealized away), and the three regular
expressions of `parse_ingredient_line` are modelled by explicit ordered
backtracking searches that reproduce the Python `re` engine's
leftmost/greedy candidate order on these particular patterns.
-/

namespace Rezept

/-- Python `\s` / `str.strip` whitespace, restricted to the ASCII range
(the inputs of interest contain no exotic Unicode whitespace). -/
def isWs (c : Char) : Bool :=
  c = ' ' || c = '\t' || c = '\n' || c = '\r' || c = '\x0b' || c = '\x0c'

/-- Python `\d`, restricted to ASCII digits. -/
def isDigit (c : Char) : Bool :=
  '0' ≤ c && c ≤ '9'

/-- The character class `[a-zA-ZäöüßÄÖÜ]` of the permissive unit pattern. -/
def isLetterCls (c : Char) : Bool :=
  ('a' ≤ c && c ≤ 'z') || ('A' ≤ c && c ≤ 'Z') ||
  c = 'ä' || c = 'ö' || c = 'ü' || c = 'ß' || c = 'Ä' || c = 'Ö' || c = 'Ü'

/-- Model of Python `str.lower` on the characters that occur here
(ASCII letters and the German umlauts; other characters are fixed,
exotic cased Unicode being out of scope). -/
def pyLower (c : Char) : Char :=
  match c with
  | 'A' => 'a' | 'B' => 'b' | 'C' => 'c' | 'D' => 'd' | 'E' => 'e'
  | 'F' => 'f' | 'G' => 'g' | 'H' => 'h' | 'I' => 'i' | 'J' => 'j'
  | 'K' => 'k' | 'L' => 'l' | 'M' => 'm' | 'N' => 'n' | 'O' => 'o'
  | 'P' => 'p' | 'Q' => 'q' | 'R' => 'r' | 'S' => 's' | 'T' => 't'
  | 'U' => 'u' | 'V' => 'v' | 'W' => 'w' | 'X' => 'x' | 'Y' => 'y'
  | 'Z' => 'z' | 'Ä' => 'ä' | 'Ö' => 'ö' | 'Ü' => 'ü'
  | c => c

/-- `str.lower` lifted to strings. -/
def pyLowerS (s : List Char) : List Char := s.map pyLower

/-- Leading-whitespace strip (`str.lstrip`). -/
def stripL (s : List Char) : List Char := s.dropWhile isWs

/-- Trailing-whitespace strip (`str.rstrip`). -/
def stripR (s : List Char) : List Char := (s.reverse.dropWhile isWs).reverse

/-- Model of Python `str.strip`. -/
def strip (s : List Char) : List Char := stripR (stripL s)

/-- Value of a run of ASCII digits as a natural number. -/
def digitsVal (ds : List Char) : ℕ :=
  ds.foldl (fun a c => 10 * a + (c.toNat - '0'.toNat)) 0

/-! ### A small backtracking engine for the three patterns of
`parse_ingredient_line`.  Each `splits*` function enumerates, in the order
the `re` engine would try them, the ways a greedy sub-pattern can split the
remaining input; `firstSome` chains them, yielding the first overall
success exactly as backtracking does. -/

/-- First success of `f` along a list of candidates. -/
def firstSome (f : α → Option β) : List α → Option β
  | [] => none
  | x :: xs =>
    match f x with
    | some y => some y
    | none => firstSome f xs

/-- The candidate splits of a greedy starred character class (`\s*`,
`[a-zA-ZäöüßÄÖÜ]*`): every prefix of matching characters, longest first. -/
def splitsStar (p : Char → Bool) (r : List Char) : List (List Char × List Char) :=
  (List.range ((r.takeWhile p).length + 1)).reverse.map
    fun i => (r.take i, r.drop i)

/-- The candidate splits of a greedy plus character class (`\s+`): every
nonempty prefix of matching characters, longest first. -/
def splitsPlus (p : Char → Bool) (r : List Char) : List (List Char × List Char) :=
  (List.range (r.takeWhile p).length).reverse.map
    fun i => (r.take (i + 1), r.drop (i + 1))

/-- The candidate splits for `\s*`. -/
def splitsWs : List Char → List (List Char × List Char) := splitsStar isWs

/-- The candidate splits for `\s+`. -/
def splitsWsPlus : List Char → List (List Char × List Char) := splitsPlus isWs

/-- The candidate splits for `([a-zA-ZäöüßÄÖÜ]*)`. -/
def splitsLetter : List Char → List (List Char × List Char) := splitsStar isLetterCls

/-- The candidate splits for `(\d+(?:[,.]?\d+)?)`, greedy first.  After the
maximal digit run `d1`, the optional `[,.]?\d+` part either consumes a
separator plus a second maximal digit run (tried first) or is empty; every
other backtracking path of this sub-pattern stops in the middle of a digit
run and dies immediately on the digit that follows, so it never contributes
a distinct outcome. -/
def numCandidates (s : List Char) : List (List Char × List Char) :=
  let d1 := s.takeWhile isDigit
  if d1 = [] then []
  else
    let r := s.drop d1.length
    match r with
    | [] => [(d1, [])]
    | c :: r' =>
      if c = ',' || c = '.' then
        let d2 := r'.takeWhile isDigit
        if d2 = [] then [(d1, r)]
        else [(d1 ++ c :: d2, r'.drop d2.length), (d1, r)]
      else [(d1, r)]

/-- The final `(.+)$` group of each pattern: `.` excludes `'\n'` and `$`
also matches just before a terminal `'\n'`, so the group captures the whole
remainder when it is nonempty and newline-free, or everything but a single
terminal newline. -/
def lastGroup (r : List Char) : Option (List Char) :=
  if '\n' ∈ r then
    if r.getLast? = some '\n' ∧ '\n' ∉ r.dropLast ∧ r.dropLast ≠ []
    then some r.dropLast else none
  else if r = [] then none else some r

/-- Pattern 1 of `parse_ingredient_line`:
`^(\d+(?:[,.]?\d+)?)\s*([a-zA-ZäöüßÄÖÜ]*)\s+(.+)$` (with `re.IGNORECASE`,
which is inert here).  Returns the three captured groups. -/
def matchP1 (s : List Char) : Option (List Char × List Char × List Char) :=
  firstSome (fun p =>
    firstSome (fun q =>
      firstSome (fun u =>
        firstSome (fun w =>
          (lastGroup w.2).map fun nm => (p.1, u.1, nm))
          (splitsWsPlus u.2))
        (splitsLetter q.2))
      (splitsWs p.2))
    (numCandidates s)

/-- The fixed unit vocabulary of pattern 2, in source order. -/
def vocabList : List (List Char) :=
  ["Prise".data, "Prisen".data, "EL".data, "TL".data, "Esslöffel".data,
   "Teelöffel".data, "Becher".data, "Tasse".data, "Tassen".data,
   "Liter".data, "ml".data, "cl".data, "dl".data, "kg".data, "g".data,
   "Stück".data, "Stk".data]

/-- Case-insensitive literal match (`re.IGNORECASE`): the pattern token is
a prefix of the text up to `pyLower`. -/
def ciPrefix (tok r : List Char) : Bool :=
  pyLowerS (r.take tok.length) = pyLowerS tok && tok.length ≤ r.length

/-- The candidate splits for the vocabulary alternation
`(Prise|Prisen|EL|...)`: each alternative that matches case-insensitively
at the current position, in the order they are written. -/
def vocabSplits (r : List Char) : List (List Char × List Char) :=
  vocabList.filterMap fun tok =>
    if ciPrefix tok r then some (r.take tok.length, r.drop tok.length)
    else none

/-- Pattern 2 of `parse_ingredient_line`:
`^(\d+(?:[,.]?\d+)?)\s+(Prise|Prisen|EL|TL|Esslöffel|Teelöffel|Becher|Tasse|Tassen|Liter|ml|cl|dl|kg|g|Stück|Stk)\s+(.+)$`
under `re.IGNORECASE`. -/
def matchP2 (s : List Char) : Option (List Char × List Char × List Char) :=
  firstSome (fun p =>
    firstSome (fun q =>
      firstSome (fun u =>
        firstSome (fun w =>
          (lastGroup w.2).map fun nm => (p.1, u.1, nm))
          (splitsWsPlus u.2))
        (vocabSplits q.2))
      (splitsWsPlus p.2))
    (numCandidates s)

/-- Pattern 3 of `parse_ingredient_line`: `^(.+)$`. -/
def matchP3 (s : List Char) : Option (List Char) := lastGroup s

/-! ### The ingredient item and the parser (`src/main.py`, `schema.py`). -/

/-- `schema.IngredientItem`: `name: str`, `amount: float | None = None`,
`unit: str | None = None`, `recipes: list[str]`. -/
structure IngredientItem where
  name : List Char
  amount : Option ℚ := none
  unit : Option (List Char) := none
  recipes : List (List Char)
deriving DecidableEq, Repr

/-- The guard `groups[0].replace(',', '.').replace('.', '').isdigit()`
(Python `isdigit` is false on the empty string). -/
def isdigitCheck (num : List Char) : Bool :=
  let t := (num.map fun c => if c = ',' then '.' else c).filter (· ≠ '.')
  ! t.isEmpty && t.all isDigit

/-- Exact value of `float(num.replace(',', '.'))` for the digit strings
with at most one separator produced by the number regexes; Python's IEEE
double is idealized as the exact decimal rational. -/
def ratOfPyFloat (num : List Char) : ℚ :=
  let s := num.map fun c => if c = ',' then '.' else c
  let ip := s.takeWhile (· ≠ '.')
  let fp := match s.drop ip.length with
    | '.' :: t => t
    | _ => []
  (digitsVal ip : ℚ) + (digitsVal fp : ℚ) / (10 : ℚ) ^ fp.length

/-- `float(...)` inside a `try`-block: succeeds exactly on well-formed
simple decimal literals (which every regex-matched quantity is). -/
def tryPyFloat (num : List Char) : Option ℚ :=
  let s := num.map fun c => if c = ',' then '.' else c
  if s.any isDigit && s.all (fun c => isDigit c || c = '.') &&
      (s.filter (· = '.')).length ≤ 1
  then some (ratOfPyFloat num) else none

/-- The shared body of the first two branches of the match handler in
`parse_ingredient_line`: three captured groups.  The first branch fires
when the digit-check passes; the second wraps the `float` conversion in
`try/except`, falling back to the whole line as name. -/
def handleGroups3 (l num u nm title : List Char) (mult : ℚ) : IngredientItem :=
  if isdigitCheck num then
    { name := strip nm, amount := some (ratOfPyFloat num * mult),
      unit := some (strip u), recipes := [title] }
  else
    match tryPyFloat num with
    | some a =>
      { name := strip nm, amount := some (a * mult),
        unit := some (strip u), recipes := [title] }
    | none => { name := l, recipes := [title] }

/-- `parse_ingredient_line(line, recipe_title, portion_multiplier)` from
`generate_shopping_list`: strip, return `None` on an empty line, otherwise
try the three patterns in order; pattern 3 (or the unreachable fall-through
after the loop) makes the whole stripped line the name. -/
def parse_ingredient_line (line title : List Char) (mult : ℚ) :
    Option IngredientItem :=
  let l := strip line
  if l = [] then none
  else
    match matchP1 l with
    | some (num, u, nm) => some (handleGroups3 l num u nm title mult)
    | none =>
      match matchP2 l with
      | some (num, u, nm) => some (handleGroups3 l num u nm title mult)
      | none =>
        match matchP3 l with
        | some _ => some { name := l, recipes := [title] }
        | none => some { name := l, recipes := [title] }

/-! ### The merge pass (`merge_ingredients`). -/

/-- Model of `list(set(xs))`: duplicates removed, first occurrences kept.
Python's set iteration order is unspecified (hash-salted), so only the
underlying set is meaningful; this deterministic refinement is used and
every property stated about `recipes` concerns the set of elements. -/
def dedupF : List (List Char) → List (List Char)
  | [] => []
  | a :: l => a :: dedupF (l.filter (· ≠ a))
termination_by l => l.length
decreasing_by
  simp only [List.length_cons]
  exact Nat.lt_succ_of_le (List.length_filter_le _ _)

/-- Python truthiness of the optional `unit` field: `None` and the empty
string are falsy. -/
def unitTruthy : Option (List Char) → Bool
  | none => false
  | some u => ! u.isEmpty

/-- The in-place update applied to an existing representative when a later
item with the same merge key arrives: recipes are extended and
de-duplicated; amounts are summed only when both are numbers and both
units are truthy and case-insensitively equal; a representative without an
amount adopts the incoming amount and unit wholesale; otherwise the
incoming quantity is dropped. -/
def combineItems (ex ing : IngredientItem) : IngredientItem :=
  let recipes' := dedupF (ex.recipes ++ ing.recipes)
  match ex.amount, ing.amount with
  | some ea, some ia =>
    if unitTruthy ex.unit && unitTruthy ing.unit &&
        pyLowerS (ex.unit.getD []) = pyLowerS (ing.unit.getD [])
    then { ex with recipes := recipes', amount := some (ea + ia) }
    else { ex with recipes := recipes' }
  | none, some _ =>
    { ex with recipes := recipes', amount := ing.amount, unit := ing.unit }
  | _, _ => { ex with recipes := recipes' }

/-- The merge key: `ingredient.name.lower().strip()`. -/
def mergeKeyOf (ing : IngredientItem) : List Char := strip (pyLowerS ing.name)

/-- One step of the merge loop over the `merged` dict, which preserves
insertion order of keys; updating the existing entry in place is the
positional map-update. -/
def mergeStep (acc : List (List Char × IngredientItem)) (ing : IngredientItem) :
    List (List Char × IngredientItem) :=
  let key := mergeKeyOf ing
  if acc.any (fun p => p.1 = key) then
    acc.map fun p => if p.1 = key then (p.1, combineItems p.2 ing) else p
  else acc ++ [(key, ing)]

/-- `merge_ingredients`: fold the flat item list into the ordered dict and
return `list(merged.values())`.  The `if not ingredient: continue` guard
skips only `None` entries, which the caller never appends. -/
def merge_ingredients (items : List IngredientItem) : List IngredientItem :=
  (items.foldl mergeStep []).map Prod.snd

/-! ### The aggregator (`generate_shopping_list`). -/

/-- Lexicographic code-point comparison of Python strings. -/
def lexLt : List Char → List Char → Bool
  | _, [] => false
  | [], _ :: _ => true
  | a :: as, b :: bs =>
    if a.toNat < b.toNat then true
    else if b.toNat < a.toNat then false
    else lexLt as bs

/-- `merged_ingredients.sort(key=lambda x: x.name.lower())`: stable sort by
the lowered name. -/
def sortIngredients (l : List IngredientItem) : List IngredientItem :=
  List.insertionSort
    (fun a b => (! lexLt (pyLowerS b.name) (pyLowerS a.name)) = true) l

/-- The recipe row fields the aggregator and scaler read. -/
structure Recipe where
  id : ℤ
  title : List Char
  portions : List Char
  ingredients : List Char
deriving DecidableEq, Repr

/-- `schema.ShoppingListResponse`. -/
structure ShoppingListResponse where
  ingredients : List IngredientItem
  recipe_count : ℕ
deriving DecidableEq, Repr

/-- `re.search(r'(\d+)', s)`: the first maximal digit run, if any. -/
def firstDigitRun : List Char → Option (List Char)
  | [] => none
  | c :: r =>
    if isDigit c then some (c :: r.takeWhile isDigit) else firstDigitRun r

/-- `request.portions_override.get(recipe_id, 1)`. -/
def lookupOverride (ov : List (ℤ × ℤ)) (i : ℤ) : ℤ :=
  match ov.find? (fun p => p.1 = i) with
  | some p => p.2
  | none => 1

/-- The per-recipe portion multiplier of `generate_shopping_list`:
`original_portions` defaults to 1, is replaced by the first digit run of
the portions text when one exists, and
`multiplier = target / original if original > 0 else 1.0`. -/
def recipeMultiplier (ov : List (ℤ × ℤ)) (r : Recipe) : ℚ :=
  let target := lookupOverride ov r.id
  let original : ℤ :=
    if ! r.portions.isEmpty then
      match firstDigitRun r.portions with
      | some ds => (digitsVal ds : ℤ)
      | none => 1
    else 1
  if 0 < original then (target : ℚ) / (original : ℚ) else 1

/-- Python `s.split('\n')` (so `"" ↦ [""]`). -/
def splitLines (l : List Char) : List (List Char) :=
  l.foldr
    (fun c acc =>
      match acc with
      | [] => [[c]]
      | h :: t => if c = '\n' then [] :: h :: t else (c :: h) :: t)
    [[]]

/-- `generate_shopping_list` given the recipe rows the storage query
resolved and the portions override: a 404 "No recipes found" error when
the query matched nothing, otherwise parse every line of every recipe with
its multiplier, merge, and sort by lowered name. -/
def generate_shopping_list (recipes : List Recipe) (ov : List (ℤ × ℤ)) :
    Except (ℕ × List Char) ShoppingListResponse :=
  if recipes = [] then .error (404, "No recipes found".data)
  else
    let all := recipes.flatMap fun r =>
      if ! r.ingredients.isEmpty then
        (splitLines r.ingredients).filterMap fun line =>
          parse_ingredient_line line r.title (recipeMultiplier ov r)
      else []
    .ok { ingredients := sortIngredients (merge_ingredients all),
          recipe_count := recipes.length }

/-! ### The portion scaler (`scale_recipe_portions`). -/

/-- The anchored leading-number match of `scale_recipe_portions`'s
`number_pattern = r'^(\d+(?:[,.]\d+)?)\s*'` (separator mandatory inside
the optional part): returns the greedy number group and the text after the
whole matched span (number plus following whitespace).  `re.sub` with this
anchored pattern replaces exactly that span. -/
def leadNumSplit (l : List Char) : Option (List Char × List Char) :=
  let d1 := l.takeWhile isDigit
  if d1 = [] then none
  else
    let r := l.drop d1.length
    match r with
    | [] => some (d1, [])
    | c :: r' =>
      if c = ',' || c = '.' then
        let d2 := r'.takeWhile isDigit
        if d2 = [] then some (d1, r.dropWhile isWs)
        else some (d1 ++ c :: d2, (r'.drop d2.length).dropWhile isWs)
      else some (d1, r.dropWhile isWs)

/-- `str(n)` for an integer. -/
def intStr (z : ℤ) : List Char :=
  if z < 0 then '-' :: Nat.toDigits 10 z.natAbs else Nat.toDigits 10 z.natAbs

/-- Round half to even, the tie-breaking rule of Python's `format`
(double-precision artifacts idealized away). -/
def rhe (q : ℚ) : ℤ :=
  if q - ⌊q⌋ < 1 / 2 then ⌊q⌋
  else if 1 / 2 < q - ⌊q⌋ then ⌊q⌋ + 1
  else if 2 ∣ ⌊q⌋ then ⌊q⌋ else ⌊q⌋ + 1

/-- The rendering of the scaled amount: `str(int(x))` when the value is a
whole number, else `f"{x:.1f}".replace('.', ',')`. -/
def fmtScaled (x : ℚ) : List Char :=
  if x.den = 1 then intStr x.num
  else
    let n := rhe (10 * x)
    (if n < 0 then ['-'] else []) ++
      Nat.toDigits 10 (n.natAbs / 10) ++ ',' :: Nat.toDigits 10 (n.natAbs % 10)

/-- `scale_ingredient_line(line, factor)`: strip the line; when it starts
with a number, multiply that number by the factor and substitute the
rendered result plus a single space for the matched span; otherwise return
the stripped line unchanged. -/
def scale_ingredient_line (line : List Char) (factor : ℚ) : List Char :=
  let l := strip line
  match leadNumSplit l with
  | some (num, rest) => fmtScaled (ratOfPyFloat num * factor) ++ ' ' :: rest
  | none => l

/-- The original-portion-count heuristic of the scale endpoint: the first
digit run of the lowered portions text, defaulting to 1 when none exists. -/
def extractedCount (portionsText : List Char) : ℕ :=
  match firstDigitRun (pyLowerS portionsText) with
  | some ds => digitsVal ds
  | none => 1

/-- The pure core of the `/recipes/{id}/scale` endpoint: extract the
original count, compute
`scaling_factor = target / original_count if original_count > 0 else 1.0`,
rewrite each ingredient line, and return the joined text with the factor. -/
def scale_recipe_portions (portionsText ingredientsText : List Char)
    (target : ℤ) : List Char × ℚ :=
  let oc := extractedCount portionsText
  let factor : ℚ := if 0 < oc then (target : ℚ) / (oc : ℚ) else 1
  let lines := if ! ingredientsText.isEmpty then splitLines ingredientsText else []
  (List.intercalate ['\n'] (lines.map fun l => scale_ingredient_line l factor),
   factor)

/-! ### Character-class facts. -/

lemma isWs_cases {c : Char} (h : isWs c = true) :
    c = ' ' ∨ c = '\t' ∨ c = '\n' ∨ c = '\r' ∨ c = '\x0b' ∨ c = '\x0c' := by
  simp only [isWs, Bool.or_eq_true, decide_eq_true_eq] at h
  tauto

lemma not_ws_of_isDigit {c : Char} (h : isDigit c = true) : isWs c = false := by
  cases hw : isWs c with
  | false => rfl
  | true =>
    rcases isWs_cases hw with rfl | rfl | rfl | rfl | rfl | rfl <;>
      exact absurd h (by decide)

lemma not_ws_of_isLetterCls {c : Char} (h : isLetterCls c = true) :
    isWs c = false := by
  cases hw : isWs c with
  | false => rfl
  | true =>
    rcases isWs_cases hw with rfl | rfl | rfl | rfl | rfl | rfl <;>
      exact absurd h (by decide)

lemma not_digit_of_isWs {c : Char} (h : isWs c = true) : isDigit c = false := by
  rcases isWs_cases h with rfl | rfl | rfl | rfl | rfl | rfl <;> decide

lemma not_letter_of_isWs {c : Char} (h : isWs c = true) :
    isLetterCls c = false := by
  rcases isWs_cases h with rfl | rfl | rfl | rfl | rfl | rfl <;> decide

lemma not_sep_of_isWs {c : Char} (h : isWs c = true) : ¬(c = ',' ∨ c = '.') := by
  rcases isWs_cases h with rfl | rfl | rfl | rfl | rfl | rfl <;> decide

lemma not_digit_of_sep {c : Char} (h : c = ',' ∨ c = '.') : isDigit c = false := by
  rcases h with rfl | rfl <;> decide

lemma pyLower_fix_of_not_letter {c : Char} (h : isLetterCls c = false) :
    pyLower c = c := by
  unfold pyLower
  split <;> first | exact absurd h (by decide) | rfl

lemma isLetterCls_pyLower {c : Char} (h : isLetterCls c = true) :
    isLetterCls (pyLower c) = true := by
  unfold pyLower
  split <;> first | decide | exact h

lemma letterCls_of_pyLower_eq {a b : Char} (hb : isLetterCls b = true)
    (h : pyLower a = pyLower b) : isLetterCls a = true := by
  by_contra hc
  rw [Bool.not_eq_true] at hc
  rw [pyLower_fix_of_not_letter hc] at h
  rw [h, isLetterCls_pyLower hb] at hc
  cases hc

/-! ### `takeWhile`/`dropWhile`/`strip` facts. -/

lemma takeWhile_append_all {p : Char → Bool} {a : List Char} (b : List Char)
    (ha : ∀ c ∈ a, p c = true) :
    (a ++ b).takeWhile p = a ++ b.takeWhile p := by
  induction a with
  | nil => simp
  | cons c t ih =>
    have hc : p c = true := ha c (by simp)
    simp [List.takeWhile_cons, hc, ih fun x hx => ha x (by simp [hx])]

lemma dropWhile_append_all {p : Char → Bool} {a : List Char} (b : List Char)
    (ha : ∀ c ∈ a, p c = true) :
    (a ++ b).dropWhile p = b.dropWhile p := by
  induction a with
  | nil => simp
  | cons c t ih =>
    have hc : p c = true := ha c (by simp)
    simp [List.dropWhile_cons, hc, ih fun x hx => ha x (by simp [hx])]

lemma takeWhile_eq_nil_of_head {p : Char → Bool} {b : List Char}
    (hb : ∀ c, b.head? = some c → p c = false) : b.takeWhile p = [] := by
  cases b with
  | nil => rfl
  | cons c t => simp [List.takeWhile_cons, hb c rfl]

lemma dropWhile_eq_self_of_head {p : Char → Bool} {b : List Char}
    (hb : ∀ c, b.head? = some c → p c = false) : b.dropWhile p = b := by
  cases b with
  | nil => rfl
  | cons c t => simp [List.dropWhile_cons, hb c rfl]

lemma takeWhile_split {p : Char → Bool} {a b : List Char}
    (ha : ∀ c ∈ a, p c = true) (hb : ∀ c, b.head? = some c → p c = false) :
    (a ++ b).takeWhile p = a ∧ (a ++ b).dropWhile p = b := by
  constructor
  · rw [takeWhile_append_all b ha, takeWhile_eq_nil_of_head hb, List.append_nil]
  · rw [dropWhile_append_all b ha, dropWhile_eq_self_of_head hb]

lemma strip_eq_self {l : List Char}
    (h1 : ∀ c, l.head? = some c → isWs c = false)
    (h2 : ∀ c, l.getLast? = some c → isWs c = false) : strip l = l := by
  unfold strip stripL stripR
  rw [dropWhile_eq_self_of_head h1]
  rw [dropWhile_eq_self_of_head fun c hc => h2 c (by rwa [← List.head?_reverse])]
  exact List.reverse_reverse l

lemma strip_eq_self_of_all {l : List Char} (h : ∀ c ∈ l, isWs c = false) :
    strip l = l := by
  apply strip_eq_self
  · intro c hc
    exact h c (List.mem_of_mem_head? (by simp [Option.mem_def, hc]))
  · intro c hc
    have hm : c ∈ l.reverse := by
      apply List.mem_of_mem_head?
      simp [Option.mem_def, List.head?_reverse, hc]
    exact h c (List.mem_reverse.mp hm)

/-! ### `firstSome` facts. -/

lemma firstSome_cons_some {f : α → Option β} {x : α} {y : β} {l : List α}
    (h : f x = some y) : firstSome f (x :: l) = some y := by
  simp [firstSome, h]

lemma firstSome_eq_none_iff {f : α → Option β} {l : List α} :
    firstSome f l = none ↔ ∀ x ∈ l, f x = none := by
  induction l with
  | nil => simp [firstSome]
  | cons a t ih =>
    simp only [firstSome]
    cases h : f a with
    | some y =>
      constructor
      · intro hc; cases hc
      · intro hall
        have := hall a (by simp)
        rw [this] at h; cases h
    | none =>
      rw [ih]
      constructor
      · intro hall x hx
        rcases List.mem_cons.mp hx with rfl | hx'
        · exact h
        · exact hall x hx'
      · intro hall x hx
        exact hall x (by simp [hx])

lemma firstSome_eq_some {f : α → Option β} {l : List α} {y : β}
    (h : firstSome f l = some y) : ∃ x ∈ l, f x = some y := by
  induction l with
  | nil => simp [firstSome] at h
  | cons a t ih =>
    simp only [firstSome] at h
    revert h
    cases ha : f a with
    | some z =>
      intro h
      exact ⟨a, by simp, by rw [ha]; exact h⟩
    | none =>
      intro h
      obtain ⟨x, hx, hfx⟩ := ih h
      exact ⟨x, by simp [hx], hfx⟩

lemma firstSome_ne_none_of_mem {f : α → Option β} {l : List α} {x : α} {y : β}
    (hx : x ∈ l) (hfx : f x = some y) : firstSome f l ≠ none := by
  intro hn
  rw [firstSome_eq_none_iff] at hn
  rw [hn x hx] at hfx
  cases hfx

/-! ### Characterizations of the candidate-split lists. -/

lemma mem_splitsStar_iff {p : Char → Bool} {r w r' : List Char} :
    (w, r') ∈ splitsStar p r ↔ (∀ c ∈ w, p c = true) ∧ r = w ++ r' := by
  unfold splitsStar
  simp only [List.mem_map, List.mem_reverse, List.mem_range]
  constructor
  · rintro ⟨i, hi, heq⟩
    injection heq with h1 h2
    subst h1; subst h2
    refine ⟨?_, (List.take_append_drop i r).symm⟩
    intro c hc
    have hle : i ≤ (r.takeWhile p).length := Nat.lt_succ_iff.mp hi
    have : r.take i = (r.takeWhile p).take i := by
      conv_lhs => rw [← List.takeWhile_append_dropWhile p r]
      rw [List.take_append_of_le_length hle]
    rw [this] at hc
    exact List.mem_takeWhile_imp (List.take_subset _ _ hc)
  · rintro ⟨hw, rfl⟩
    refine ⟨w.length, ?_, ?_⟩
    · rw [takeWhile_append_all r' hw, List.length_append]
      omega
    · rw [List.take_left, List.drop_left]

lemma mem_splitsPlus_iff {p : Char → Bool} {r w r' : List Char} :
    (w, r') ∈ splitsPlus p r ↔
      w ≠ [] ∧ (∀ c ∈ w, p c = true) ∧ r = w ++ r' := by
  unfold splitsPlus
  simp only [List.mem_map, List.mem_reverse, List.mem_range]
  constructor
  · rintro ⟨i, hi, heq⟩
    injection heq with h1 h2
    subst h1; subst h2
    have hle : i + 1 ≤ (r.takeWhile p).length := hi
    refine ⟨?_, ?_, (List.take_append_drop (i + 1) r).symm⟩
    · have : (r.take (i + 1)).length = i + 1 := by
        rw [List.length_take]
        have : i + 1 ≤ r.length :=
          le_trans hle (List.takeWhile_prefix p).length_le
        omega
      intro hnil
      rw [hnil] at this
      simp at this
    · intro c hc
      have : r.take (i + 1) = (r.takeWhile p).take (i + 1) := by
        conv_lhs => rw [← List.takeWhile_append_dropWhile p r]
        rw [List.take_append_of_le_length hle]
      rw [this] at hc
      exact List.mem_takeWhile_imp (List.take_subset _ _ hc)
  · rintro ⟨hne, hw, rfl⟩
    obtain ⟨n, hn⟩ : ∃ n, w.length = n + 1 :=
      ⟨w.length - 1, by cases w with | nil => exact absurd rfl hne | cons => simp⟩
    refine ⟨n, ?_, ?_⟩
    · rw [takeWhile_append_all r' hw, List.length_append]
      omega
    · rw [← hn, List.take_left, List.drop_left]

lemma all_letter_of_pyLowerS_eq {u tok : List Char}
    (htok : ∀ c ∈ tok, isLetterCls c = true) (h : pyLowerS u = pyLowerS tok) :
    ∀ c ∈ u, isLetterCls c = true := by
  induction u generalizing tok with
  | nil => simp
  | cons a as ih =>
    cases tok with
    | nil => simp [pyLowerS] at h
    | cons b bs =>
      simp only [pyLowerS, List.map_cons, List.cons.injEq] at h
      intro c hc
      rcases List.mem_cons.mp hc with rfl | hc'
      · exact letterCls_of_pyLower_eq (htok b (by simp)) h.1
      · exact ih (fun x hx => htok x (List.mem_cons_of_mem b hx))
          (by simpa [pyLowerS] using h.2) c hc'

lemma mem_vocabSplits {r u r' : List Char} (h : (u, r') ∈ vocabSplits r) :
    u ≠ [] ∧ (∀ c ∈ u, isLetterCls c = true) ∧ r = u ++ r' := by
  unfold vocabSplits at h
  simp only [List.mem_filterMap] at h
  obtain ⟨tok, htok, hif⟩ := h
  have hvocab : tok ≠ [] ∧ ∀ c ∈ tok, isLetterCls c = true := by
    have hall : ∀ t ∈ vocabList, t ≠ [] ∧ ∀ c ∈ t, isLetterCls c = true := by
      decide
    exact hall tok htok
  by_cases hp : ciPrefix tok r = true
  · rw [if_pos hp] at hif
    simp only [Option.some.injEq, Prod.mk.injEq] at hif
    obtain ⟨h1, h2⟩ := hif
    subst h1; subst h2
    have hci : pyLowerS (r.take tok.length) = pyLowerS tok := by
      unfold ciPrefix at hp
      exact of_decide_eq_true (Bool.and_elim_left hp)
    have hlen : (r.take tok.length).length = tok.length := by
      have hc := congrArg List.length hci
      simpa [pyLowerS] using hc
    refine ⟨?_, all_letter_of_pyLowerS_eq hvocab.2 hci,
      (List.take_append_drop tok.length r).symm⟩
    intro hnil
    rw [hnil] at hlen
    exact hvocab.1 (List.length_eq_zero.mp hlen.symm)
  · rw [if_neg hp] at hif
    cases hif

/-! ### Computation lemmas for the composed vocabulary line. -/

/-- The number shapes of the claim: a digit run, or two digit runs joined
by a comma or period. -/
def numShapeP (num : List Char) : Prop :=
  (num ≠ [] ∧ ∀ c ∈ num, isDigit c = true) ∨
  (∃ d1 s d2, num = d1 ++ s :: d2 ∧ d1 ≠ [] ∧ (∀ c ∈ d1, isDigit c = true) ∧
    (s = ',' ∨ s = '.') ∧ d2 ≠ [] ∧ (∀ c ∈ d2, isDigit c = true))

lemma sep_check_false_of_isWs {w : Char} (hw : isWs w = true) :
    (decide (w = ',') || decide (w = '.')) = false := by
  rcases isWs_cases hw with rfl | rfl | rfl | rfl | rfl | rfl <;> decide

lemma head_cons_not_digit {w : Char} {t : List Char} (hw : isWs w = true) :
    ∀ c, (w :: t).head? = some c → isDigit c = false := by
  intro c hc
  injection hc with h
  subst h
  exact not_digit_of_isWs hw

/-- `numCandidates` on an integer digit run followed by whitespace-headed
tail: exactly the one greedy candidate. -/
lemma numCandidates_int {num : List Char} {w : Char} {t : List Char}
    (h0 : num ≠ []) (hd : ∀ c ∈ num, isDigit c = true) (hw : isWs w = true) :
    numCandidates (num ++ w :: t) = [(num, w :: t)] := by
  have htw : (num ++ w :: t).takeWhile isDigit = num ∧
      (num ++ w :: t).dropWhile isDigit = w :: t :=
    takeWhile_split hd (head_cons_not_digit hw)
  unfold numCandidates
  simp only [htw.1, if_neg h0]
  have hdrop : (num ++ w :: t).drop num.length = w :: t := List.drop_left _ _
  rw [hdrop]
  simp only [sep_check_false_of_isWs hw]
  rfl

/-- `numCandidates` on a decimal number followed by whitespace-headed
tail: the greedy separator candidate first, then the bare first run. -/
lemma numCandidates_dec {d1 d2 : List Char} {s w : Char} {t : List Char}
    (h1 : d1 ≠ []) (hd1 : ∀ c ∈ d1, isDigit c = true)
    (hs : s = ',' ∨ s = '.') (h2 : d2 ≠ [])
    (hd2 : ∀ c ∈ d2, isDigit c = true) (hw : isWs w = true) :
    numCandidates ((d1 ++ s :: d2) ++ w :: t) =
      [(d1 ++ s :: d2, w :: t), (d1, s :: (d2 ++ w :: t))] := by
  have hsd : isDigit s = false := not_digit_of_sep hs
  have heq : (d1 ++ s :: d2) ++ w :: t = d1 ++ s :: (d2 ++ w :: t) := by
    simp
  rw [heq]
  have hsh : ∀ c, (s :: (d2 ++ w :: t)).head? = some c → isDigit c = false := by
    intro c hc
    injection hc with h
    subst h
    exact hsd
  have htw : (d1 ++ s :: (d2 ++ w :: t)).takeWhile isDigit = d1 ∧
      (d1 ++ s :: (d2 ++ w :: t)).dropWhile isDigit = s :: (d2 ++ w :: t) :=
    takeWhile_split hd1 hsh
  unfold numCandidates
  simp only [htw.1, if_neg h1]
  have hdrop : (d1 ++ s :: (d2 ++ w :: t)).drop d1.length = s :: (d2 ++ w :: t) :=
    List.drop_left _ _
  rw [hdrop]
  have hsep : (decide (s = ',') || decide (s = '.')) = true := by
    rcases hs with rfl | rfl <;> decide
  simp only [hsep]
  have htw2 : (d2 ++ w :: t).takeWhile isDigit = d2 ∧
      (d2 ++ w :: t).dropWhile isDigit = w :: t :=
    takeWhile_split hd2 (head_cons_not_digit hw)
  simp only [htw2.1, if_neg h2]
  have hdrop2 : (d2 ++ w :: t).drop d2.length = w :: t := List.drop_left _ _
  rw [hdrop2]
  rfl

/-- Head of the greedy star-split when the input is an exact boundary. -/
lemma splitsStar_cons {p : Char → Bool} {a b : List Char}
    (ha : ∀ c ∈ a, p c = true) (hb : ∀ c, b.head? = some c → p c = false) :
    splitsStar p (a ++ b) = (a, b) ::
      (List.range a.length).reverse.map
        (fun i => ((a ++ b).take i, (a ++ b).drop i)) := by
  unfold splitsStar
  rw [(takeWhile_split ha hb).1, List.range_succ, List.reverse_append]
  simp only [List.reverse_cons, List.reverse_nil, List.nil_append,
    List.singleton_append, List.map_cons]
  rw [List.take_left, List.drop_left]

/-- Head of the greedy plus-split when the input is an exact boundary. -/
lemma splitsPlus_cons {p : Char → Bool} {a b : List Char} (h0 : a ≠ [])
    (ha : ∀ c ∈ a, p c = true) (hb : ∀ c, b.head? = some c → p c = false) :
    splitsPlus p (a ++ b) = (a, b) ::
      (List.range (a.length - 1)).reverse.map
        (fun i => ((a ++ b).take (i + 1), (a ++ b).drop (i + 1))) := by
  obtain ⟨m, hm⟩ : ∃ m, a.length = m + 1 := by
    cases a with
    | nil => exact absurd rfl h0
    | cons c cs => exact ⟨cs.length, by simp⟩
  unfold splitsPlus
  rw [(takeWhile_split ha hb).1, hm, List.range_succ, List.reverse_append]
  simp only [List.reverse_cons, List.reverse_nil, List.nil_append,
    List.singleton_append, List.map_cons]
  rw [show m + 1 = a.length from hm.symm, List.take_left, List.drop_left]
  simp [hm]

/-- `(.+)$` captures a nonempty newline-free remainder whole. -/
lemma lastGroup_of_clean {r : List Char} (h0 : r ≠ [])
    (hnl : ('\n' : Char) ∉ r) : lastGroup r = some r := by
  unfold lastGroup
  rw [if_neg hnl, if_neg h0]

lemma isdigitCheck_of_shape {num : List Char} (h : numShapeP num) :
    isdigitCheck num = true := by
  have hmap : ∀ (l : List Char), (∀ c ∈ l, isDigit c = true) →
      l.map (fun c => if c = ',' then '.' else c) = l := by
    intro l hl
    have he : ∀ c ∈ l, (fun c => if c = ',' then '.' else c) c = c := by
      intro c hc
      have hne : ¬ c = ',' := by
        intro h'
        subst h'
        exact absurd (hl _ hc) (by decide)
      simp [hne]
    conv_rhs => rw [← List.map_id l]
    exact List.map_congr_left he
  have hfil : ∀ (l : List Char), (∀ c ∈ l, isDigit c = true) →
      l.filter (fun x => decide (x ≠ '.')) = l := by
    intro l hl
    apply List.filter_eq_self.mpr
    intro c hc
    have hne : ¬ c = '.' := by
      intro h'
      subst h'
      exact absurd (hl _ hc) (by decide)
    simpa using hne
  rcases h with ⟨h0, hd⟩ | ⟨d1, s, d2, rfl, h1, hd1, hs, h2, hd2⟩
  · unfold isdigitCheck
    simp only [hmap num hd, hfil num hd]
    cases num with
    | nil => exact absurd rfl h0
    | cons c t =>
      simp only [List.isEmpty_cons, Bool.not_false, Bool.true_and]
      exact List.all_eq_true.mpr hd
  · unfold isdigitCheck
    have hm : (d1 ++ s :: d2).map (fun c => if c = ',' then '.' else c) =
        d1 ++ '.' :: d2 := by
      rw [List.map_append, List.map_cons, hmap d1 hd1, hmap d2 hd2]
      rcases hs with rfl | rfl <;> simp
    simp only [hm, List.filter_append, List.filter_cons]
    simp only [ne_eq, not_true_eq_false, decide_False]
    rw [hfil d1 hd1, hfil d2 hd2]
    cases d1 with
    | nil => exact absurd rfl h1
    | cons c t =>
      simp only [List.cons_append, List.isEmpty_cons, Bool.not_false,
        Bool.true_and]
      apply List.all_eq_true.mpr
      intro c' hc'
      rcases (by simpa using hc' : c' = c ∨ c' ∈ t ∨ c' ∈ d2) with rfl | h' | h'
      · exact hd1 c' (by simp)
      · exact hd1 c' (by simp [h'])
      · exact hd2 c' h'

/-! ### Claim theorems. -/

lemma firstSome_ne_none_of_mem_ne {f : α → Option β} {l : List α} {x : α}
    (hx : x ∈ l) (hfx : f x ≠ none) : firstSome f l ≠ none := by
  intro hn
  rw [firstSome_eq_none_iff] at hn
  exact hfx (hn x hx)

/-- Every line the fixed-vocabulary pattern matches is already matched by
the permissive pattern: the vocabulary token is a letter-class run, so the
same split is among the permissive pattern's candidates. -/
lemma matchP1_some_of_matchP2 {s : List Char}
    {v : List Char × List Char × List Char} (h : matchP2 s = some v) :
    matchP1 s ≠ none := by
  unfold matchP2 at h
  obtain ⟨p, hp, h1⟩ := firstSome_eq_some h
  obtain ⟨q, hq, h2⟩ := firstSome_eq_some h1
  obtain ⟨uu, huu, h3⟩ := firstSome_eq_some h2
  obtain ⟨w, hw, h4⟩ := firstSome_eq_some h3
  have hq' := mem_splitsPlus_iff.mp hq
  have huu' := mem_vocabSplits huu
  unfold matchP1
  apply firstSome_ne_none_of_mem_ne hp
  apply firstSome_ne_none_of_mem_ne
    (mem_splitsStar_iff.mpr ⟨hq'.2.1, hq'.2.2⟩)
  apply firstSome_ne_none_of_mem_ne
    (mem_splitsStar_iff.mpr ⟨huu'.2.1, huu'.2.2⟩)
  apply firstSome_ne_none_of_mem_ne hw
  show (lastGroup w.2).map (fun nm => (p.1, uu.1, nm)) ≠ none
  intro hn
  cases hl : lastGroup w.2 with
  | none =>
    rw [hl] at h4
    simp at h4
  | some nm =>
    rw [hl] at hn
    simp at hn

/-- Modelled from the claim for the refinement comparison: a parser that
uses only the permissive number-unit-name pattern and the whole-line
fallback, skipping the fixed-vocabulary pattern entirely. -/
def parse_ingredient_line_permissive (line title : List Char) (mult : ℚ) :
    Option IngredientItem :=
  let l := strip line
  if l = [] then none
  else
    match matchP1 l with
    | some (num, u, nm) => some (handleGroups3 l num u nm title mult)
    | none =>
      match matchP3 l with
      | some _ => some { name := l, recipes := [title] }
      | none => some { name := l, recipes := [title] }

/-- C9: the fixed-vocabulary pattern never determines the result — every
line it matches is already matched by the permissive first pattern, so the
full parser agrees with the parser using only the permissive pattern and
the whole-line fallback on every line, title and multiplier. -/
theorem parse_ingredient_line_permissive_refines :
    (∀ (s : List Char) (v : List Char × List Char × List Char),
      matchP2 s = some v → matchP1 s ≠ none) ∧
    ∀ (line title : List Char) (m : ℚ),
      parse_ingredient_line line title m =
        parse_ingredient_line_permissive line title m := by
  refine ⟨fun s v h => matchP1_some_of_matchP2 h, ?_⟩
  intro line title m
  unfold parse_ingredient_line parse_ingredient_line_permissive
  by_cases h : strip line = []
  · simp [h]
  · simp only [if_neg h]
    cases h1 : matchP1 (strip line) with
    | some v => rfl
    | none =>
      cases h2 : matchP2 (strip line) with
      | some v => exact absurd h1 (matchP1_some_of_matchP2 h2)
      | none => rfl

/-- Witness for C9: "1 Prise Salz" is matched by the vocabulary pattern,
hence also by the permissive pattern, and the two parsers agree on
"2 Eier". -/
theorem parse_ingredient_line_permissive_refines_witness :
    matchP1 "1 Prise Salz".data ≠ none ∧
    parse_ingredient_line "2 Eier".data "T".data 1 =
      parse_ingredient_line_permissive "2 Eier".data "T".data 1 :=
  ⟨parse_ingredient_line_permissive_refines.1 "1 Prise Salz".data
      ("1".data, "Prise".data, "Salz".data) (by decide),
   parse_ingredient_line_permissive_refines.2 "2 Eier".data "T".data 1⟩

/-- C1: for every ingredient line of the form number-whitespace-unit-
whitespace-remainder, where the number is a digit run or two digit runs
joined by a comma or period, the unit is a case-insensitive variant of a
token of the fixed vocabulary, and the remainder is nonempty, trimmed and
newline-free, `parse_ingredient_line` returns an item whose amount is the
number's value (comma normalized to period) multiplied by the scale
factor, whose unit is the unit token exactly as written in the line, and
whose name is the trimmed remainder. -/
theorem parse_vocab_unit_line
    (num ws1 u ws2 rest title : List Char) (m : ℚ)
    (hnum : numShapeP num)
    (hw1 : ws1 ≠ []) (hw1a : ∀ c ∈ ws1, isWs c = true)
    (hw2 : ws2 ≠ []) (hw2a : ∀ c ∈ ws2, isWs c = true)
    (hu : ∃ tok ∈ vocabList, pyLowerS u = pyLowerS tok)
    (hr0 : rest ≠ [])
    (hrh : ∀ c, rest.head? = some c → isWs c = false)
    (hrl : ∀ c, rest.getLast? = some c → isWs c = false)
    (hnl : ('\n' : Char) ∉ rest) :
    parse_ingredient_line (num ++ ws1 ++ u ++ ws2 ++ rest) title m =
      some { name := strip rest, amount := some (ratOfPyFloat num * m),
             unit := some u, recipes := [title] } := by
  have hv : ∀ t ∈ vocabList, t ≠ [] ∧ ∀ c ∈ t, isLetterCls c = true := by
    decide
  obtain ⟨tok, htok, hci⟩ := hu
  have hul : ∀ c ∈ u, isLetterCls c = true :=
    all_letter_of_pyLowerS_eq (hv tok htok).2 hci
  have hu0 : u ≠ [] := by
    intro h0
    have hlen : u.length = tok.length := by
      have hc := congrArg List.length hci
      simpa [pyLowerS] using hc
    rw [h0] at hlen
    exact (hv tok htok).1 (List.length_eq_zero.mp hlen.symm)
  have hnumhead : ∀ c, num.head? = some c → isDigit c = true := by
    rcases hnum with ⟨h0, hd⟩ | ⟨d1, s, d2, heq, h1, hd1, _, _, _⟩
    · intro c hc
      exact hd c (List.mem_of_mem_head? (by simp [Option.mem_def, hc]))
    · subst heq
      cases d1 with
      | nil => exact absurd rfl h1
      | cons a b =>
        intro c hc
        injection hc with h
        subst h
        exact hd1 a (by simp)
  have hnum0 : num ≠ [] := by
    rcases hnum with ⟨h0, _⟩ | ⟨d1, s, d2, heq, h1, _, _, _, _⟩
    · exact h0
    · subst heq
      simp
  obtain ⟨w1, t1, rfl⟩ : ∃ w t, ws1 = w :: t := by
    cases ws1 with
    | nil => exact absurd rfl hw1
    | cons a b => exact ⟨a, b, rfl⟩
  obtain ⟨w2, t2, rfl⟩ : ∃ w t, ws2 = w :: t := by
    cases ws2 with
    | nil => exact absurd rfl hw2
    | cons a b => exact ⟨a, b, rfl⟩
  obtain ⟨cu, tu, rfl⟩ : ∃ c t, u = c :: t := by
    cases u with
    | nil => exact absurd rfl hu0
    | cons a b => exact ⟨a, b, rfl⟩
  obtain ⟨cn, tn, rfl⟩ : ∃ c t, num = c :: t := by
    cases num with
    | nil => exact absurd rfl hnum0
    | cons a b => exact ⟨a, b, rfl⟩
  have hw1w : isWs w1 = true := hw1a w1 (by simp)
  have hw2w : isWs w2 = true := hw2a w2 (by simp)
  have hcuw : isLetterCls cu = true := hul cu (by simp)
  -- the greedy number candidate comes first
  have hcand : ∃ L,
      numCandidates ((cn :: tn) ++
          ((w1 :: t1) ++ ((cu :: tu) ++ ((w2 :: t2) ++ rest)))) =
        ((cn :: tn),
          (w1 :: t1) ++ ((cu :: tu) ++ ((w2 :: t2) ++ rest))) :: L := by
    rcases hnum with ⟨h0, hd⟩ | ⟨d1, s, d2, heq, h1, hd1, hs, h2, hd2⟩
    · exact ⟨[], numCandidates_int h0 hd hw1w⟩
    · rw [heq]
      refine ⟨[(d1, s :: (d2 ++
        (w1 :: (t1 ++ ((cu :: tu) ++ ((w2 :: t2) ++ rest))))))], ?_⟩
      exact numCandidates_dec h1 hd1 hs h2 hd2 hw1w
  obtain ⟨L, hcand⟩ := hcand
  -- the innermost `\s+ (.+)$` succeeds at its greedy head
  have h4 : firstSome
      (fun w => (lastGroup w.2).map fun nm => ((cn :: tn), (cu :: tu), nm))
      (splitsWsPlus ((w2 :: t2) ++ rest)) =
        some ((cn :: tn), (cu :: tu), rest) := by
    unfold splitsWsPlus
    rw [splitsPlus_cons (by simp) hw2a hrh]
    apply firstSome_cons_some
    show (lastGroup rest).map (fun nm => ((cn :: tn), (cu :: tu), nm)) = _
    rw [lastGroup_of_clean hr0 hnl]
    rfl
  -- the letter-class group takes exactly the unit token
  have h3 : firstSome (fun q =>
      firstSome
        (fun w => (lastGroup w.2).map fun nm => ((cn :: tn), q.1, nm))
        (splitsWsPlus q.2))
      (splitsLetter ((cu :: tu) ++ ((w2 :: t2) ++ rest))) =
        some ((cn :: tn), (cu :: tu), rest) := by
    have hb : ∀ c, ((w2 :: t2) ++ rest).head? = some c →
        isLetterCls c = false := by
      intro c hc
      injection hc with h
      subst h
      exact not_letter_of_isWs hw2w
    unfold splitsLetter
    rw [splitsStar_cons hul hb]
    apply firstSome_cons_some
    show firstSome
      (fun w => (lastGroup w.2).map fun nm => ((cn :: tn), (cu :: tu), nm))
      (splitsWsPlus ((w2 :: t2) ++ rest)) = _
    exact h4
  -- the `\s*` group takes exactly the first whitespace run
  have h2' : firstSome (fun q =>
      firstSome (fun u' =>
        firstSome
          (fun w => (lastGroup w.2).map fun nm => ((cn :: tn), u'.1, nm))
          (splitsWsPlus u'.2))
        (splitsLetter q.2))
      (splitsWs ((w1 :: t1) ++ ((cu :: tu) ++ ((w2 :: t2) ++ rest)))) =
        some ((cn :: tn), (cu :: tu), rest) := by
    have hb : ∀ c, ((cu :: tu) ++ ((w2 :: t2) ++ rest)).head? = some c →
        isWs c = false := by
      intro c hc
      injection hc with h
      subst h
      exact not_ws_of_isLetterCls hcuw
    unfold splitsWs
    rw [splitsStar_cons hw1a hb]
    apply firstSome_cons_some
    show firstSome (fun u' =>
      firstSome
        (fun w => (lastGroup w.2).map fun nm => ((cn :: tn), u'.1, nm))
        (splitsWsPlus u'.2))
      (splitsLetter ((cu :: tu) ++ ((w2 :: t2) ++ rest))) = _
    exact h3
  have hm1 : matchP1 ((cn :: tn) ++
      ((w1 :: t1) ++ ((cu :: tu) ++ ((w2 :: t2) ++ rest)))) =
        some ((cn :: tn), (cu :: tu), rest) := by
    unfold matchP1
    rw [hcand]
    apply firstSome_cons_some
    show firstSome (fun q =>
      firstSome (fun u' =>
        firstSome
          (fun w => (lastGroup w.2).map fun nm => ((cn :: tn), u'.1, nm))
          (splitsWsPlus u'.2))
        (splitsLetter q.2))
      (splitsWs ((w1 :: t1) ++ ((cu :: tu) ++ ((w2 :: t2) ++ rest)))) = _
    exact h2'
  -- the composed line is already stripped
  have hlinehead : ∀ c, ((cn :: tn) ++
      ((w1 :: t1) ++ ((cu :: tu) ++ ((w2 :: t2) ++ rest)))).head? = some c →
        isWs c = false := by
    intro c hc
    injection hc with h
    subst h
    exact not_ws_of_isDigit (hnumhead cn rfl)
  have hlast : ((cn :: tn) ++
      ((w1 :: t1) ++ ((cu :: tu) ++ ((w2 :: t2) ++ rest)))).getLast? =
        rest.getLast? := by
    rw [List.getLast?_append_of_ne_nil _ (by simp),
        List.getLast?_append_of_ne_nil _ (by simp),
        List.getLast?_append_of_ne_nil _ (by simp [hr0]),
        List.getLast?_append_of_ne_nil _ hr0]
  have hlinelast : ∀ c, ((cn :: tn) ++
      ((w1 :: t1) ++ ((cu :: tu) ++ ((w2 :: t2) ++ rest)))).getLast? =
        some c → isWs c = false := by
    intro c hc
    rw [hlast] at hc
    exact hrl c hc
  have hstrip : strip ((cn :: tn) ++
      ((w1 :: t1) ++ ((cu :: tu) ++ ((w2 :: t2) ++ rest)))) =
      (cn :: tn) ++ ((w1 :: t1) ++ ((cu :: tu) ++ ((w2 :: t2) ++ rest))) :=
    strip_eq_self hlinehead hlinelast
  have hne : (cn :: tn) ++
      ((w1 :: t1) ++ ((cu :: tu) ++ ((w2 :: t2) ++ rest))) ≠ [] := by
    simp
  have hassoc : (cn :: tn) ++ (w1 :: t1) ++ (cu :: tu) ++ (w2 :: t2) ++ rest =
      (cn :: tn) ++ ((w1 :: t1) ++ ((cu :: tu) ++ ((w2 :: t2) ++ rest))) := by
    simp [List.append_assoc]
  rw [hassoc]
  unfold parse_ingredient_line
  simp only [hstrip, if_neg hne, hm1]
  unfold handleGroups3
  rw [if_pos (isdigitCheck_of_shape hnum)]
  rw [strip_eq_self_of_all fun c hc => not_ws_of_isLetterCls (hul c hc)]

/-- Witness for C1 at the spec's own example: "1 Prise Salz" with scale
factor 2 parses to amount 2.0, unit "Prise", name "Salz". -/
theorem parse_vocab_unit_line_witness :
    parse_ingredient_line
        ("1".data ++ " ".data ++ "Prise".data ++ " ".data ++ "Salz".data)
        "Suppe".data 2 =
      some { name := strip "Salz".data,
             amount := some (ratOfPyFloat "1".data * 2),
             unit := some "Prise".data, recipes := ["Suppe".data] } :=
  parse_vocab_unit_line "1".data " ".data "Prise".data " ".data "Salz".data
    "Suppe".data 2 (Or.inl ⟨by decide, by decide⟩) (by decide) (by decide)
    (by decide) (by decide) ⟨"Prise".data, by decide, by decide⟩ (by decide)
    (by intro c hc; injection hc with h; subst h; decide)
    (by intro c hc; injection hc with h; subst h; decide)
    (by decide)

/-- C7: for every input line and recipe title, `parse_ingredient_line`
never raises: it returns `None` exactly when the line is empty after
trimming, and on every non-blank line it returns an ingredient item — in
the worst case (no pattern with groups matching) the whole trimmed line
becomes the name with amount and unit absent. -/
theorem parse_ingredient_line_total (line title : List Char) (m : ℚ) :
    (parse_ingredient_line line title m = none ↔ strip line = []) ∧
    (strip line ≠ [] → matchP1 (strip line) = none →
      matchP2 (strip line) = none →
      parse_ingredient_line line title m =
        some { name := strip line, amount := none, unit := none,
               recipes := [title] }) := by
  constructor
  · unfold parse_ingredient_line
    by_cases h : strip line = []
    · simp [h]
    · simp only [if_neg h]
      constructor
      · intro hc
        exfalso
        revert hc
        split
        · intro hc; cases hc
        · split
          · intro hc; cases hc
          · split <;> (intro hc; cases hc)
      · intro hc
        exact absurd hc h
  · intro h h1 h2
    unfold parse_ingredient_line
    simp only [if_neg h, h1, h2]
    split <;> rfl

/-- Witness for C7 at the spec's own example "Salz nach Geschmack": no
number-led pattern matches and the whole line becomes the name. -/
theorem parse_ingredient_line_total_witness :
    parse_ingredient_line "Salz nach Geschmack".data "Suppe".data 1 =
      some { name := "Salz nach Geschmack".data, amount := none, unit := none,
             recipes := ["Suppe".data] } :=
  (parse_ingredient_line_total "Salz nach Geschmack".data "Suppe".data 1).2
    (by decide) (by decide) (by decide)

/-- C8: when the requested recipe ids resolve to zero recipes, the
aggregator reports the 404 "No recipes found" condition and hence never
returns a successful payload (empty or otherwise). -/
theorem shopping_list_empty_not_found (ov : List (ℤ × ℤ)) :
    generate_shopping_list [] ov =
      Except.error (404, "No recipes found".data) := rfl

/-- C6 (counterexample): with portions text "0 Portionen" and target 3 the
scaler computes factor 1.0 — not `targetPortions / 1 = 3` as claimed, so
the claim's equation fails at this input. -/
theorem scale_zero_portions_counterexample :
    (scale_recipe_portions "0 Portionen".data "2 EL Öl".data 3).2 = 1 ∧
    ¬ (scale_recipe_portions "0 Portionen".data "2 EL Öl".data 3).2 = 3 := by
  have h : (scale_recipe_portions "0 Portionen".data "2 EL Öl".data 3).2 = 1 := by
    with_unfolding_all rfl
  refine ⟨h, ?_⟩
  rw [h]
  norm_num

/-- C6 (amended): for every target and every original-portions text whose
first digit run has value 0, the scaler raises no division fault and the
scaling factor is 1.0 (the guard `original_count > 0` short-circuits to
the 1.0 default; the denominator-defaults-to-1 behavior of the claim
applies only when no digit run exists at all). -/
theorem scale_zero_portions_amended (ptext itext : List Char) (t : ℤ)
    (h : extractedCount ptext = 0) :
    (scale_recipe_portions ptext itext t).2 = 1 := by
  simp only [scale_recipe_portions, h]
  rfl

/-- Witness for the amended C6. -/
theorem scale_zero_portions_amended_witness :
    (scale_recipe_portions "0 Portionen".data "2 EL Öl".data 3).2 = 1 :=
  scale_zero_portions_amended "0 Portionen".data "2 EL Öl".data 3 (by decide)

/-- C5 (counterexample): scaling "1.5 kg Mehl" at the recipe's own portion
count (factor 1.0) rewrites the line to "1,5 kg Mehl" — the period becomes
a comma, a non-whitespace character change, so the scaled text is not the
input modulo whitespace normalization only. -/
theorem scale_same_portions_counterexample :
    (scale_recipe_portions "4 Portionen".data "1.5 kg Mehl".data 4).2 = 1 ∧
    (scale_recipe_portions "4 Portionen".data "1.5 kg Mehl".data 4).1 =
      "1,5 kg Mehl".data ∧
    "1,5 kg Mehl".data ≠ "1.5 kg Mehl".data := by
  refine ⟨by with_unfolding_all rfl, by with_unfolding_all rfl, by decide⟩

/-- C5 (amended): scaling with `targetPortions` equal to the extracted
original portion count yields scaling factor 1.0, and each line of the
scaled text is the trimmed input line with only its leading number
re-rendered canonically at its unchanged numeric value (integer rendering
when whole, else one decimal with a comma separator) followed by a single
separating space; every character after the leading number's span is
unchanged, and lines without a leading number are only trimmed. -/
theorem scale_same_portions_amended (ptext itext : List Char) :
    (scale_recipe_portions ptext itext (extractedCount ptext : ℤ)).2 = 1 ∧
    (scale_recipe_portions ptext itext (extractedCount ptext : ℤ)).1 =
      List.intercalate ['\n']
        ((if ! itext.isEmpty then splitLines itext else []).map fun l =>
          match leadNumSplit (strip l) with
          | some (num, rest) => fmtScaled (ratOfPyFloat num) ++ ' ' :: rest
          | none => strip l) := by
  have hfac : (if 0 < extractedCount ptext
      then ((extractedCount ptext : ℤ) : ℚ) / (extractedCount ptext : ℚ)
      else 1) = 1 := by
    by_cases h : 0 < extractedCount ptext
    · have hne : (extractedCount ptext : ℚ) ≠ 0 := by exact_mod_cast h.ne'
      rw [if_pos h, Int.cast_natCast, div_self hne]
    · rw [if_neg h]
  have hline : ∀ l, scale_ingredient_line l 1 =
      match leadNumSplit (strip l) with
      | some (num, rest) => fmtScaled (ratOfPyFloat num) ++ ' ' :: rest
      | none => strip l := by
    intro l
    unfold scale_ingredient_line
    cases hm : leadNumSplit (strip l) with
    | some p =>
      cases p with
      | mk num rest => simp [hm]
    | none => simp [hm]
  constructor
  · simp only [scale_recipe_portions, hfac]
  · simp only [scale_recipe_portions, hfac, hline]

/-- C3 (counterexample): in the end-to-end scenario the merged "Zwiebel"
entry carries `unit = some ""` — the empty string produced by the
permissive pattern — and not `None` as the claim states; the multipliers
2.0 and 1.0, the amounts 5.0 and 2.0, the "EL" unit and the recipe sets
are all as claimed. -/
theorem shopping_list_scenario_counterexample :
    generate_shopping_list
        [⟨1, "A".data, "4 Portionen".data, "2 EL Öl\n1 Zwiebel".data⟩,
         ⟨2, "B".data, "2 Portionen".data, "1 EL Öl".data⟩]
        [(1, 8), (2, 2)] =
      Except.ok
        { ingredients :=
            [{ name := "Zwiebel".data, amount := some 2, unit := some [],
               recipes := ["A".data] },
             { name := "Öl".data, amount := some 5, unit := some "EL".data,
               recipes := ["A".data, "B".data] }],
          recipe_count := 2 } ∧
    (some ([] : List Char) : Option (List Char)) ≠ none := by
  refine ⟨by with_unfolding_all rfl, by decide⟩

/-- C3 (amended): the end-to-end scenario of the claim holds with one
change: the "Zwiebel" entry's unit is the empty string (pattern 2 of the
parser captures an empty unit token), not an absent `None`.  Multipliers
are 2.0 and 1.0, "Öl" sums to 5.0 with unit "EL" and recipes {A, B},
"Zwiebel" scales to 2.0 with recipes {A}; the output is sorted by lowered
name (code point order puts "Zwiebel" before "Öl"). -/
theorem shopping_list_scenario_amended :
    recipeMultiplier [(1, 8), (2, 2)]
        ⟨1, "A".data, "4 Portionen".data, "2 EL Öl\n1 Zwiebel".data⟩ = 2 ∧
    recipeMultiplier [(1, 8), (2, 2)]
        ⟨2, "B".data, "2 Portionen".data, "1 EL Öl".data⟩ = 1 ∧
    generate_shopping_list
        [⟨1, "A".data, "4 Portionen".data, "2 EL Öl\n1 Zwiebel".data⟩,
         ⟨2, "B".data, "2 Portionen".data, "1 EL Öl".data⟩]
        [(1, 8), (2, 2)] =
      Except.ok
        { ingredients :=
            [{ name := "Zwiebel".data, amount := some 2, unit := some [],
               recipes := ["A".data] },
             { name := "Öl".data, amount := some 5, unit := some "EL".data,
               recipes := ["A".data, "B".data] }],
          recipe_count := 2 } := by
  refine ⟨by with_unfolding_all rfl, by with_unfolding_all rfl,
    by with_unfolding_all rfl⟩

/-- Merging exactly two items that share the merge key yields the single
combined representative. -/
lemma merge_two_same_key {a b : IngredientItem}
    (hk : mergeKeyOf a = mergeKeyOf b) :
    merge_ingredients [a, b] = [combineItems a b] := by
  have step1 : mergeStep [] a = [(mergeKeyOf a, a)] := rfl
  have step2 : mergeStep [(mergeKeyOf a, a)] b =
      [(mergeKeyOf a, combineItems a b)] := by
    unfold mergeStep
    have hany : [(mergeKeyOf a, a)].any (fun p => p.1 = mergeKeyOf b) = true := by
      simp [hk]
    rw [if_pos hany]
    simp [hk]
  unfold merge_ingredients
  rw [show List.foldl mergeStep [] [a, b] = mergeStep (mergeStep [] a) b
    from rfl]
  rw [step1, step2]
  rfl

/-- C2: when two items share the merge key, both carry numeric amounts and
both carry equal (case-insensitively), non-empty units, the merge sums the
amounts into the single retained entry, keeps the unit, and records both
recipe lists. -/
theorem merge_sums_matching_units (a b : IngredientItem) (x y : ℚ)
    (u v : List Char) (hk : mergeKeyOf a = mergeKeyOf b)
    (ha : a.amount = some x) (hb : b.amount = some y)
    (hu : a.unit = some u) (hv : b.unit = some v)
    (hu0 : u ≠ []) (hv0 : v ≠ []) (huv : pyLowerS u = pyLowerS v) :
    merge_ingredients [a, b] =
      [{ a with amount := some (x + y),
                recipes := dedupF (a.recipes ++ b.recipes) }] := by
  rw [merge_two_same_key hk]
  unfold combineItems
  rw [ha, hb, hu, hv]
  have h1 : unitTruthy (some u) = true := by
    cases u with
    | nil => exact absurd rfl hu0
    | cons c t => rfl
  have h2 : unitTruthy (some v) = true := by
    cases v with
    | nil => exact absurd rfl hv0
    | cons c t => rfl
  simp [h1, h2, huv]

/-- Witness for C2: the spec's Zucker scenario — "100g Zucker" from Suppe
and "50g Zucker" from Kuchen (multiplier 1 each) parse to 100 g and 50 g
and merge to a single 150 g entry with both recipes. -/
theorem merge_sums_matching_units_witness :
    parse_ingredient_line "100g Zucker".data "Suppe".data 1 =
      some { name := "Zucker".data, amount := some 100, unit := some "g".data,
             recipes := ["Suppe".data] } ∧
    parse_ingredient_line "50g Zucker".data "Kuchen".data 1 =
      some { name := "Zucker".data, amount := some 50, unit := some "g".data,
             recipes := ["Kuchen".data] } ∧
    merge_ingredients
      [{ name := "Zucker".data, amount := some 100, unit := some "g".data,
         recipes := ["Suppe".data] },
       { name := "Zucker".data, amount := some 50, unit := some "g".data,
         recipes := ["Kuchen".data] }] =
      [{ name := "Zucker".data, amount := some 150, unit := some "g".data,
         recipes := ["Suppe".data, "Kuchen".data] }] := by
  refine ⟨by with_unfolding_all rfl, by with_unfolding_all rfl, ?_⟩
  have h := merge_sums_matching_units
    { name := "Zucker".data, amount := some 100, unit := some "g".data,
      recipes := ["Suppe".data] }
    { name := "Zucker".data, amount := some 50, unit := some "g".data,
      recipes := ["Kuchen".data] }
    100 50 "g".data "g".data rfl rfl rfl rfl rfl (by decide) (by decide) rfl
  rw [h]
  with_unfolding_all rfl

/-- C4: when two items share the merge key but their non-empty units
differ case-insensitively, the merge keeps the first-adopted amount and
unit unchanged — the incoming amount is dropped from the numeric total,
with no unit conversion and no exception — while the incoming recipes are
still recorded. -/
theorem merge_incompatible_units_keeps_first (a b : IngredientItem) (x : ℚ)
    (u v : List Char) (hk : mergeKeyOf a = mergeKeyOf b)
    (ha : a.amount = some x) (hu : a.unit = some u) (hv : b.unit = some v)
    (hu0 : u ≠ []) (hv0 : v ≠ []) (huv : pyLowerS u ≠ pyLowerS v) :
    merge_ingredients [a, b] =
      [{ a with recipes := dedupF (a.recipes ++ b.recipes) }] := by
  rw [merge_two_same_key hk]
  unfold combineItems
  rw [ha, hu, hv]
  cases hb : b.amount with
  | some y => simp [huv]
  | none => simp

/-- Witness for C4: "100g Zucker" and "2 EL Zucker" (multiplier 1 each)
merge to a single entry retaining 100.0 and "g", with both recipe titles
present. -/
theorem merge_incompatible_units_keeps_first_witness :
    parse_ingredient_line "100g Zucker".data "Suppe".data 1 =
      some { name := "Zucker".data, amount := some 100, unit := some "g".data,
             recipes := ["Suppe".data] } ∧
    parse_ingredient_line "2 EL Zucker".data "Kuchen".data 1 =
      some { name := "Zucker".data, amount := some 2, unit := some "EL".data,
             recipes := ["Kuchen".data] } ∧
    merge_ingredients
      [{ name := "Zucker".data, amount := some 100, unit := some "g".data,
         recipes := ["Suppe".data] },
       { name := "Zucker".data, amount := some 2, unit := some "EL".data,
         recipes := ["Kuchen".data] }] =
      [{ name := "Zucker".data, amount := some 100, unit := some "g".data,
         recipes := ["Suppe".data, "Kuchen".data] }] := by
  refine ⟨by with_unfolding_all rfl, by with_unfolding_all rfl, ?_⟩
  have h := merge_incompatible_units_keeps_first
    { name := "Zucker".data, amount := some 100, unit := some "g".data,
      recipes := ["Suppe".data] }
    { name := "Zucker".data, amount := some 2, unit := some "EL".data,
      recipes := ["Kuchen".data] }
    100 "g".data "EL".data rfl rfl rfl rfl (by decide) (by decide) (by decide)
  rw [h]
  with_unfolding_all rfl

/-- C10: amounts whose unit is the empty string are never summed: two
same-key items both carrying numeric amounts and empty-string units merge
to a single entry keeping only the first amount, while both source recipes
are recorded. -/
theorem merge_empty_unit_not_summed (a b : IngredientItem) (x y : ℚ)
    (hk : mergeKeyOf a = mergeKeyOf b) (ha : a.amount = some x)
    (hb : b.amount = some y) (hu : a.unit = some []) (hv : b.unit = some []) :
    merge_ingredients [a, b] =
      [{ a with recipes := dedupF (a.recipes ++ b.recipes) }] := by
  rw [merge_two_same_key hk]
  unfold combineItems
  rw [ha, hb, hu, hv]
  simp [unitTruthy]

/-- Witness for C10: "2 Eier" parses to amount 2, unit "", name "Eier";
merging it with "3 Eier" keeps amount 2 (not 5) and records both
recipes. -/
theorem merge_empty_unit_not_summed_witness :
    parse_ingredient_line "2 Eier".data "A".data 1 =
      some { name := "Eier".data, amount := some 2, unit := some [],
             recipes := ["A".data] } ∧
    parse_ingredient_line "3 Eier".data "B".data 1 =
      some { name := "Eier".data, amount := some 3, unit := some [],
             recipes := ["B".data] } ∧
    merge_ingredients
      [{ name := "Eier".data, amount := some 2, unit := some [],
         recipes := ["A".data] },
       { name := "Eier".data, amount := some 3, unit := some [],
         recipes := ["B".data] }] =
      [{ name := "Eier".data, amount := some 2, unit := some [],
         recipes := ["A".data, "B".data] }] := by
  refine ⟨by with_unfolding_all rfl, by with_unfolding_all rfl, ?_⟩
  have h := merge_empty_unit_not_summed
    { name := "Eier".data, amount := some 2, unit := some [],
      recipes := ["A".data] }
    { name := "Eier".data, amount := some 3, unit := some [],
      recipes := ["B".data] }
    2 3 rfl rfl rfl rfl rfl
  rw [h]
  with_unfolding_all rfl

end Rezept
